import Mathlib

/-!
Verification of the folding-wall control and geometry core.

Shallow embedding of:
  - the per-frame control fusion and smoothing step of the wall component
    (FoldStrip.tsx, `useFrame` body);
  - the fold-geometry polyline walk and vertex emission (FoldStrip.tsx);
  - the hand-pose derivation (HandController.tsx, `predictWebcam`);
  - the hand-update handler (Scene3D.tsx, `handleHandUpdate`);
  - the app-level state machine (App component and types.ts).

Machine floats are modelled as real numbers; the vertex buffer as a list of
3D points; the React state transitions as a step relation on an enum.
-/

/-- Control data held in the shared control ref and in the wall's internal
smoothing state (`FoldControlData` / `currentStats` in FoldStrip.tsx). -/
structure FoldControlData where
  compression : ℝ
  tiltX : ℝ
  tiltY : ℝ

/-- Sample emitted by the hand controller (`HandControlData` in
HandController.tsx). -/
structure HandControlData where
  compression : ℝ
  x : ℝ
  y : ℝ
  isTracking : Bool

/-- three.js `MathUtils.lerp(x, y, t) = (1 - t) * x + t * y`. -/
def lerp (x y t : ℝ) : ℝ := (1 - t) * x + t * y

/-- The smoothing step of the render loop (FoldStrip.tsx lines 56-58):
compression lerps toward the target with factor 0.1, the two tilts with
factor 0.05. -/
def updateCurrentStats (current target : FoldControlData) : FoldControlData :=
  { compression := lerp current.compression target.compression 0.1,
    tiltX := lerp current.tiltX target.tiltX 0.05,
    tiltY := lerp current.tiltY target.tiltY 0.05 }

/-- FoldStrip.tsx line 67: `mouseCompression = Math.abs(pointer.x)`. -/
def mouseCompression (pointerX : ℝ) : ℝ := |pointerX|

/-- FoldStrip.tsx line 70: the effective compression is the stronger of the
smoothed hand compression and the mouse compression. -/
def effectiveCompression (smoothedCompression pointerX : ℝ) : ℝ :=
  max smoothedCompression (mouseCompression pointerX)

/-- Scene3D.tsx `handleHandUpdate`: a tracked sample is written to the control
ref (hand x becomes tiltX, hand y becomes tiltY); a lost-tracking sample
resets the ref to all zeros. -/
def handleHandUpdate (d : HandControlData) : FoldControlData :=
  if d.isTracking then ⟨d.compression, d.x, d.y⟩ else ⟨0, 0, 0⟩

/-- HandController.tsx line 108: the sample emitted when no hand is detected. -/
def noHandUpdate : HandControlData := ⟨0, 0, 0, false⟩

/-- Repeated application of the fusion smoothing step for compression with a
constant target `c` (FoldStrip.tsx line 56 iterated over frames). -/
def iterateCompression (c s0 : ℝ) : ℕ → ℝ
  | 0 => s0
  | n + 1 => lerp (iterateCompression c s0 n) c 0.1

/-- A normalized 2D hand landmark as consumed by the derivation
(HandController.tsx uses only the x and y fields of landmarks 0, 9, 12). -/
structure Landmark where
  x : ℝ
  y : ℝ

/-- HandController.tsx lines 77-79: distance between wrist and middle-finger
knuckle (landmark 9). -/
noncomputable def handSize (wrist middleMcp : Landmark) : ℝ :=
  Real.sqrt ((middleMcp.x - wrist.x) ^ 2 + (middleMcp.y - wrist.y) ^ 2)

/-- HandController.tsx lines 81-83: distance between wrist and middle-finger
tip (landmark 12). -/
noncomputable def extension (wrist middleTip : Landmark) : ℝ :=
  Real.sqrt ((middleTip.x - wrist.x) ^ 2 + (middleTip.y - wrist.y) ^ 2)

/-- HandController.tsx line 86: `ratio = extension / handSize`, with no guard
on a zero hand size. -/
noncomputable def ratioOf (wrist middleTip middleMcp : Landmark) : ℝ :=
  extension wrist middleTip / handSize wrist middleMcp

/-- HandController.tsx line 91:
`compression = 1 - Math.max(0, Math.min(1, (ratio - 0.9) / 0.8))`. -/
noncomputable def ratioToCompression (r : ℝ) : ℝ :=
  1 - max 0 (min 1 ((r - 0.9) / 0.8))

/-- HandController.tsx lines 91-105: the sample emitted whenever landmarks are
present, with mirrored x and flipped y taken from the middle knuckle. -/
noncomputable def deriveHandSample (wrist middleTip middleMcp : Landmark) : HandControlData :=
  { compression := ratioToCompression (ratioOf wrist middleTip middleMcp),
    x := (1 - middleMcp.x) * 2 - 1,
    y := -(middleMcp.y * 2 - 1),
    isTracking := true }

/-- FoldStrip.tsx line 80: accordion pleats alternate fold direction,
+1 for even strips and -1 for odd strips. -/
def dirOf (i : ℕ) : ℝ := if i % 2 = 0 then 1 else -1

/-- FoldStrip.tsx line 82: per-strip temporal wobble
`wave = Math.sin(time * 1.5 + i * 0.3) * 0.15`. -/
noncomputable def waveOf (t : ℝ) (i : ℕ) : ℝ :=
  Real.sin (t * 1.5 + (i : ℝ) * 0.3) * 0.15

/-- FoldStrip.tsx line 87: `baseAngle = effectiveCompression * 1.3 + wave * 0.1`. -/
noncomputable def baseAngle (ec t : ℝ) (i : ℕ) : ℝ :=
  ec * 1.3 + waveOf t i * 0.1

/-- FoldStrip.tsx line 90: the clamped, direction-signed fold angle
`angle = dir * Math.min(Math.PI / 2.05, baseAngle + noise * 0.1 * effectiveCompression)`. -/
noncomputable def foldAngle (noise : ℕ → ℝ) (ec t : ℝ) (i : ℕ) : ℝ :=
  dirOf i * min (Real.pi / 2.05) (baseAngle ec t i + noise i * 0.1 * ec)

/-- FoldStrip.tsx line 74: `segWidth = width / strips`. -/
noncomputable def segWidth (width : ℝ) (strips : ℕ) : ℝ := width / strips

/-- FoldStrip.tsx lines 75-98: accumulated x positions of the strip
boundaries (`xPositions`), starting at 0, each step adding
`segWidth * cos(angle)`. -/
noncomputable def xPos (width : ℝ) (strips : ℕ) (noise : ℕ → ℝ) (ec t : ℝ) : ℕ → ℝ
  | 0 => 0
  | i + 1 => xPos width strips noise ec t i
      + segWidth width strips * Real.cos (foldAngle noise ec t i)

/-- FoldStrip.tsx lines 77-98: accumulated z positions of the strip
boundaries (`zPositions`), starting at 0, each step adding
`segWidth * sin(angle)`. -/
noncomputable def zPos (width : ℝ) (strips : ℕ) (noise : ℕ → ℝ) (ec t : ℝ) : ℕ → ℝ
  | 0 => 0
  | i + 1 => zPos width strips noise ec t i
      + segWidth width strips * Real.sin (foldAngle noise ec t i)

/-- FoldStrip.tsx lines 100-101: recentering offset
`offsetX = -totalCurrentWidth / 2` with `totalCurrentWidth` the last
accumulated x position. -/
noncomputable def offsetX (width : ℝ) (strips : ℕ) (noise : ℕ → ℝ) (ec t : ℝ) : ℝ :=
  -(xPos width strips noise ec t strips) / 2

/-- FoldStrip.tsx lines 103-109: the emitted vertex buffer; for each boundary
index `i` in `0..strips`, position `i` holds the top vertex
`(x_i + offsetX, height / 2, z_i)` and position `i + strips + 1` holds the
bottom vertex with the same x and z and `y = -height / 2`. -/
noncomputable def foldVertexSet (width height : ℝ) (strips : ℕ) (noise : ℕ → ℝ)
    (ec t : ℝ) : List (ℝ × ℝ × ℝ) :=
  ((List.range (strips + 1)).map fun i =>
    (xPos width strips noise ec t i + offsetX width strips noise ec t,
      height / 2, zPos width strips noise ec t i)) ++
  ((List.range (strips + 1)).map fun i =>
    (xPos width strips noise ec t i + offsetX width strips noise ec t,
      -(height / 2), zPos width strips noise ec t i))

/-- types.ts lines 1-6: the app-level states. -/
inductive AppState where
  | IDLE
  | CAPTURING
  | PROCESSING
  | INTERACTIVE
deriving DecidableEq

/-- The events that update the app state: `handleCapture` (App component,
fires from the camera screen shown in IDLE), the processing timeout, and
`handleReset` (fired from the interactive scene). -/
inductive AppEvent where
  | capture
  | processingDone
  | reset
deriving DecidableEq

/-- The App component's state transitions: `handleCapture` moves IDLE to
PROCESSING, the timeout moves PROCESSING to INTERACTIVE, and `handleReset`
moves INTERACTIVE back to IDLE. No other transition occurs; in particular no
transition ever enters CAPTURING. -/
def appStep : AppState → AppEvent → Option AppState
  | AppState.IDLE, AppEvent.capture => some AppState.PROCESSING
  | AppState.PROCESSING, AppEvent.processingDone => some AppState.INTERACTIVE
  | AppState.INTERACTIVE, AppEvent.reset => some AppState.IDLE
  | _, _ => none

/-- A run of the app state machine: the list of states visited while
consuming a list of events, or none if some event cannot fire. -/
def appTrace : AppState → List AppEvent → Option (List AppState)
  | s, [] => some [s]
  | s, e :: evs => (appStep s e).bind fun s2 =>
      (appTrace s2 evs).map fun sts => s :: sts

/-- Claim C1: Control Fusion computes the effective compression as the maximum
of the smoothed hand compression and the mouse compression `|pointer.x|`; it is
monotone in each input separately, and with `pointer = (1, 0)` and the hand
untracked it equals 1 for any previous smoothed state with compression ≤ 1. -/
theorem c1_max_precedence (s s2 px px2 : ℝ) (prev : FoldControlData) :
    effectiveCompression s px = max s |px| ∧
    (s ≤ s2 → effectiveCompression s px ≤ effectiveCompression s2 px) ∧
    (|px| ≤ |px2| → effectiveCompression s px ≤ effectiveCompression s px2) ∧
    (prev.compression ≤ 1 →
      effectiveCompression
        (updateCurrentStats prev (handleHandUpdate noHandUpdate)).compression 1 = 1) := by
  refine ⟨rfl, ?_, ?_, ?_⟩
  · intro h
    exact max_le_max h le_rfl
  · intro h
    exact max_le_max le_rfl h
  · intro h
    have hcomp : (updateCurrentStats prev (handleHandUpdate noHandUpdate)).compression
        = 0.9 * prev.compression := by
      simp only [updateCurrentStats, handleHandUpdate, noHandUpdate, lerp]
      norm_num
    rw [hcomp]
    unfold effectiveCompression mouseCompression
    rw [abs_one]
    exact max_eq_right (by linarith)

/-- Witness for C1 at concrete inputs. -/
theorem c1_witness :
    effectiveCompression 0 0 ≤ effectiveCompression 1 0 ∧
    effectiveCompression
      (updateCurrentStats ⟨1, 0, 0⟩ (handleHandUpdate noHandUpdate)).compression 1 = 1 :=
  ⟨(c1_max_precedence 0 1 0 0 ⟨1, 0, 0⟩).2.1 (by norm_num),
   (c1_max_precedence 0 1 0 0 ⟨1, 0, 0⟩).2.2.2 (by norm_num)⟩

/-- Claim C4: the fusion step lerps compression with factor 0.1 and the tilts
with factor 0.05; each call multiplies the compression error toward a constant
target by 0.9, so after n calls the error is 0.9^n times the initial error, and
an initial error of at most 1 is within 1e-3 after 66 (about 60) iterations. -/
theorem c4_smoothing_convergence (s c : ℝ) (st tgt : FoldControlData) :
    (updateCurrentStats st tgt).compression = lerp st.compression tgt.compression 0.1 ∧
    (updateCurrentStats st tgt).tiltX = lerp st.tiltX tgt.tiltX 0.05 ∧
    (updateCurrentStats st tgt).tiltY = lerp st.tiltY tgt.tiltY 0.05 ∧
    |lerp s c 0.1 - c| = 0.9 * |s - c| ∧
    (∀ n, |iterateCompression c s n - c| = 0.9 ^ n * |s - c|) ∧
    (|s - c| ≤ 1 → |iterateCompression c s 66 - c| ≤ 1 / 1000) := by
  have key : ∀ a : ℝ, |lerp a c 0.1 - c| = 0.9 * |a - c| := by
    intro a
    have h : lerp a c 0.1 - c = 0.9 * (a - c) := by unfold lerp; ring
    rw [h, abs_mul, abs_of_pos (by norm_num : (0 : ℝ) < 0.9)]
  have hiter : ∀ n, |iterateCompression c s n - c| = 0.9 ^ n * |s - c| := by
    intro n
    induction n with
    | zero => simp [iterateCompression]
    | succ n ih =>
      have : iterateCompression c s (n + 1) = lerp (iterateCompression c s n) c 0.1 := rfl
      rw [this, key, ih]
      ring
  refine ⟨rfl, rfl, rfl, key s, hiter, ?_⟩
  intro h
  rw [hiter 66]
  calc (0.9 : ℝ) ^ 66 * |s - c| ≤ 0.9 ^ 66 * 1 :=
        mul_le_mul_of_nonneg_left h (by positivity)
    _ ≤ 1 / 1000 := by norm_num

/-- Witness for C4 at concrete inputs. -/
theorem c4_witness : |iterateCompression 0 1 66 - 0| ≤ 1 / 1000 :=
  (c4_smoothing_convergence 1 0 ⟨0, 0, 0⟩ ⟨0, 0, 0⟩).2.2.2.2.2 (by norm_num)

/-- Claim C6: when no hand is detected the controller emits exactly
compression 0, x 0, y 0, isTracking false; downstream, a nonzero stale smoothed
state decays geometrically toward 0 (factor 0.9 per frame for compression,
0.95 for the tilts) and never snaps instantly to zero. -/
theorem c6_no_hand_decay (st : FoldControlData) :
    noHandUpdate.compression = 0 ∧ noHandUpdate.x = 0 ∧ noHandUpdate.y = 0 ∧
    noHandUpdate.isTracking = false ∧
    (updateCurrentStats st (handleHandUpdate noHandUpdate)).compression
      = 0.9 * st.compression ∧
    (updateCurrentStats st (handleHandUpdate noHandUpdate)).tiltX = 0.95 * st.tiltX ∧
    (updateCurrentStats st (handleHandUpdate noHandUpdate)).tiltY = 0.95 * st.tiltY ∧
    (st.compression ≠ 0 →
      (updateCurrentStats st (handleHandUpdate noHandUpdate)).compression ≠ 0 ∧
      |(updateCurrentStats st (handleHandUpdate noHandUpdate)).compression|
        < |st.compression|) := by
  have hcomp : (updateCurrentStats st (handleHandUpdate noHandUpdate)).compression
      = 0.9 * st.compression := by
    simp only [updateCurrentStats, handleHandUpdate, noHandUpdate, lerp]
    norm_num
  have htx : (updateCurrentStats st (handleHandUpdate noHandUpdate)).tiltX
      = 0.95 * st.tiltX := by
    simp only [updateCurrentStats, handleHandUpdate, noHandUpdate, lerp]
    norm_num
  have hty : (updateCurrentStats st (handleHandUpdate noHandUpdate)).tiltY
      = 0.95 * st.tiltY := by
    simp only [updateCurrentStats, handleHandUpdate, noHandUpdate, lerp]
    norm_num
  refine ⟨rfl, rfl, rfl, rfl, hcomp, htx, hty, ?_⟩
  intro hne
  constructor
  · rw [hcomp]
    exact mul_ne_zero (by norm_num) hne
  · rw [hcomp, abs_mul, abs_of_pos (by norm_num : (0 : ℝ) < 0.9)]
    have : 0 < |st.compression| := abs_pos.mpr hne
    linarith

/-- Witness for C6 at a concrete nonzero stale state. -/
theorem c6_witness :
    (updateCurrentStats ⟨1, 1, 1⟩ (handleHandUpdate noHandUpdate)).compression ≠ 0 ∧
    |(updateCurrentStats ⟨1, 1, 1⟩ (handleHandUpdate noHandUpdate)).compression|
      < |(⟨1, 1, 1⟩ : FoldControlData).compression| :=
  (c6_no_hand_decay ⟨1, 1, 1⟩).2.2.2.2.2.2.2 (by norm_num)

/-- Claim C5 evaluation (code bug): the derivation contains no guard on a
degenerate hand size — every frame with landmarks present is emitted with
isTracking true, and with all three landmarks coincident the hand size is 0
while the sample is still emitted as a tracked hand rather than "no hand". -/
theorem c5_no_guard_eval :
    handSize ⟨0.5, 0.5⟩ ⟨0.5, 0.5⟩ = 0 ∧
    (∀ wrist middleTip middleMcp : Landmark,
      (deriveHandSample wrist middleTip middleMcp).isTracking = true) ∧
    (deriveHandSample ⟨0.5, 0.5⟩ ⟨0.5, 0.5⟩ ⟨0.5, 0.5⟩).isTracking = true := by
  refine ⟨?_, fun _ _ _ => rfl, rfl⟩
  unfold handSize
  norm_num

/-- Claim C7: the derivation maps the extension ratio to
`1 - clamp((ratio - 0.9) / 0.8, 0, 1)`, so a ratio of at least 1.7 yields
compression 0 and a ratio of at most 0.9 yields compression 1; the emitted
position is the mirrored `x = (1 - knuckle.x) * 2 - 1` and flipped
`y = -(knuckle.y * 2 - 1)`. -/
theorem c7_derivation (r : ℝ) (wrist middleTip middleMcp : Landmark) :
    (1.7 ≤ r → ratioToCompression r = 0) ∧
    (r ≤ 0.9 → ratioToCompression r = 1) ∧
    (deriveHandSample wrist middleTip middleMcp).compression
      = ratioToCompression (ratioOf wrist middleTip middleMcp) ∧
    (deriveHandSample wrist middleTip middleMcp).x = (1 - middleMcp.x) * 2 - 1 ∧
    (deriveHandSample wrist middleTip middleMcp).y = -(middleMcp.y * 2 - 1) := by
  refine ⟨?_, ?_, rfl, rfl, rfl⟩
  · intro h
    unfold ratioToCompression
    have h1 : (1 : ℝ) ≤ (r - 0.9) / 0.8 := by
      rw [le_div_iff₀ (by norm_num : (0 : ℝ) < 0.8)]
      linarith
    rw [min_eq_left h1, max_eq_right (by norm_num : (0 : ℝ) ≤ 1)]
    norm_num
  · intro h
    unfold ratioToCompression
    have h1 : (r - 0.9) / 0.8 ≤ 0 := by
      rw [div_nonpos_iff]
      exact Or.inr ⟨by linarith, by norm_num⟩
    rw [min_eq_right (h1.trans zero_le_one), max_eq_left h1]
    norm_num

/-- Witness for C7 at concrete ratios. -/
theorem c7_witness : ratioToCompression 2 = 0 ∧ ratioToCompression 0.5 = 1 :=
  ⟨(c7_derivation 2 ⟨0, 0⟩ ⟨0, 0⟩ ⟨0, 0⟩).1 (by norm_num),
   (c7_derivation 0.5 ⟨0, 0⟩ ⟨0, 0⟩ ⟨0, 0⟩).2.1 (by norm_num)⟩

/-- The clamped angle magnitude never exceeds pi/2.05: the min clamps it from
above, and the unclamped value is at least -0.015 (the worst the wave term can
contribute when compression and noise are nonnegative). -/
theorem foldAngle_abs_le (noise : ℕ → ℝ) (ec t : ℝ) (i : ℕ)
    (hec0 : 0 ≤ ec) (hn0 : 0 ≤ noise i) :
    |foldAngle noise ec t i| ≤ Real.pi / 2.05 := by
  have hpi : (3 : ℝ) < Real.pi := Real.pi_gt_three
  have hq : (0.015 : ℝ) ≤ Real.pi / 2.05 := by
    rw [le_div_iff₀ (by norm_num : (0 : ℝ) < 2.05)]
    linarith
  have hsin := Real.neg_one_le_sin (t * 1.5 + (i : ℝ) * 0.3)
  have hprod : 0 ≤ noise i * 0.1 * ec :=
    mul_nonneg (mul_nonneg hn0 (by norm_num)) hec0
  have hec13 : 0 ≤ ec * 1.3 := mul_nonneg hec0 (by norm_num)
  have hlow : -(0.015 : ℝ) ≤ baseAngle ec t i + noise i * 0.1 * ec := by
    unfold baseAngle waveOf
    nlinarith
  have habs : |dirOf i| = 1 := by
    unfold dirOf
    split <;> simp
  unfold foldAngle
  rw [abs_mul, habs, one_mul, abs_le]
  constructor
  · have h1 : min (Real.pi / 2.05) (-(0.015 : ℝ))
        ≤ min (Real.pi / 2.05) (baseAngle ec t i + noise i * 0.1 * ec) :=
      min_le_min le_rfl hlow
    have h2 : min (Real.pi / 2.05) (-(0.015 : ℝ)) = -(0.015 : ℝ) :=
      min_eq_right (by linarith)
    linarith
  · exact min_le_left _ _

/-- Claim C2: for all valid inputs, every per-strip fold angle is clamped to
magnitude at most pi/2.05 — the self-intersection guard holds regardless of
compression, noise, or time. -/
theorem c2_angle_clamped (noise : ℕ → ℝ) (ec t : ℝ) (i : ℕ)
    (hec0 : 0 ≤ ec) (hec1 : ec ≤ 1) (hn0 : 0 ≤ noise i) (hn1 : noise i < 1) :
    |foldAngle noise ec t i| ≤ Real.pi / 2.05 :=
  foldAngle_abs_le noise ec t i hec0 hn0

/-- Witness for C2 at concrete inputs. -/
theorem c2_witness : |foldAngle (fun _ => 0.5) 0.5 0 0| ≤ Real.pi / 2.05 :=
  c2_angle_clamped (fun _ => 0.5) 0.5 0 0 (by norm_num) (by norm_num)
    (by norm_num) (by norm_num)

/-- With zero effective compression and an all-zero noise table, the clamp is
inactive and each fold angle reduces to the pure wave contribution. -/
theorem foldAngle_zero_noise (t : ℝ) (i : ℕ) :
    foldAngle (fun _ => 0) 0 t i
      = dirOf i * (Real.sin (t * 1.5 + (i : ℝ) * 0.3) * 0.015) := by
  have hpi : (3 : ℝ) < Real.pi := Real.pi_gt_three
  have hs1 := Real.sin_le_one (t * 1.5 + (i : ℝ) * 0.3)
  have hinner : baseAngle 0 t i + (fun _ => (0 : ℝ)) i * 0.1 * 0
      = Real.sin (t * 1.5 + (i : ℝ) * 0.3) * 0.015 := by
    unfold baseAngle waveOf
    ring
  have hle : Real.sin (t * 1.5 + (i : ℝ) * 0.3) * 0.015 ≤ Real.pi / 2.05 := by
    rw [le_div_iff₀ (by norm_num : (0 : ℝ) < 2.05)]
    nlinarith
  unfold foldAngle
  rw [hinner, min_eq_right hle]

/-- Claim C3 (amended): with effective compression 0 and an all-zero noise
table the clamp is inactive and each per-strip angle equals the residual wave
term `dir_i * sin(t * 1.5 + i * 0.3) * 0.015`, bounded in magnitude by 0.015;
the angles are not all zero at a fixed time, so the polyline is only
approximately straight. -/
theorem c3_amended (t : ℝ) (i : ℕ) :
    foldAngle (fun _ => 0) 0 t i
      = dirOf i * (Real.sin (t * 1.5 + (i : ℝ) * 0.3) * 0.015) ∧
    |foldAngle (fun _ => 0) 0 t i| ≤ 0.015 := by
  refine ⟨foldAngle_zero_noise t i, ?_⟩
  rw [foldAngle_zero_noise t i]
  have habs : |dirOf i| = 1 := by
    unfold dirOf
    split <;> simp
  rw [abs_mul, habs, one_mul, abs_mul]
  have hs := Real.abs_sin_le_one (t * 1.5 + (i : ℝ) * 0.3)
  have h15 : |(0.015 : ℝ)| = 0.015 := by norm_num
  rw [h15]
  nlinarith

/-- Claim C3 counterexample: at effective compression 0, all-zero noise table,
strips 4, width 16, and fixed time t = 0, the fold angle of strip 1 is nonzero
(the wave term persists) and the z coordinate of boundary 2 is strictly
negative — the generated polyline is not a straight line with all z = 0. -/
theorem c3_counterexample :
    foldAngle (fun _ => 0) 0 0 1 ≠ 0 ∧ zPos 16 4 (fun _ => 0) 0 0 2 < 0 := by
  have hpi : (3 : ℝ) < Real.pi := Real.pi_gt_three
  have hs3 : 0 < Real.sin 0.3 :=
    Real.sin_pos_of_pos_of_lt_pi (by norm_num) (by linarith)
  have hs3le := Real.sin_le_one (0.3 : ℝ)
  have h1 : foldAngle (fun _ => 0) 0 0 1 = -(Real.sin 0.3 * 0.015) := by
    rw [foldAngle_zero_noise]
    norm_num [dirOf]
  have h0 : foldAngle (fun _ => 0) 0 0 0 = 0 := by
    rw [foldAngle_zero_noise]
    norm_num
  have hseg : segWidth 16 4 = 4 := by
    unfold segWidth
    norm_num
  have hz1 : zPos 16 4 (fun _ => 0) 0 0 1 = 0 := by
    have e1 : zPos 16 4 (fun _ => 0) 0 0 1
        = zPos 16 4 (fun _ => 0) 0 0 0
          + segWidth 16 4 * Real.sin (foldAngle (fun _ => 0) 0 0 0) := rfl
    rw [e1, h0]
    simp [zPos]
  have hsinneg : Real.sin (-(Real.sin 0.3 * 0.015)) < 0 := by
    apply Real.sin_neg_of_neg_of_neg_pi_lt
    · nlinarith
    · nlinarith
  constructor
  · rw [h1]
    nlinarith
  · have e2 : zPos 16 4 (fun _ => 0) 0 0 2
        = zPos 16 4 (fun _ => 0) 0 0 1
          + segWidth 16 4 * Real.sin (foldAngle (fun _ => 0) 0 0 1) := rfl
    rw [e2, hz1, h1, hseg]
    nlinarith

/-- Claim C8: for every strip count `strips` of at least 1 the generator emits
exactly `2 * (strips + 1)` vertices; boundary index `i` in `0..strips` gets a
top vertex `(x_i + offsetX, height / 2, z_i)` at position `i` and a bottom
vertex with the same x and z and `y = -height / 2` at position
`i + strips + 1`. -/
theorem c8_vertex_layout (width height : ℝ) (strips : ℕ) (noise : ℕ → ℝ)
    (ec t : ℝ) (i : ℕ) (hstrips : 1 ≤ strips) (hi : i ≤ strips) :
    (foldVertexSet width height strips noise ec t).length = 2 * (strips + 1) ∧
    (foldVertexSet width height strips noise ec t)[i]?
      = some (xPos width strips noise ec t i + offsetX width strips noise ec t,
          height / 2, zPos width strips noise ec t i) ∧
    (foldVertexSet width height strips noise ec t)[i + strips + 1]?
      = some (xPos width strips noise ec t i + offsetX width strips noise ec t,
          -(height / 2), zPos width strips noise ec t i) := by
  have hlen1 : ((List.range (strips + 1)).map fun j =>
      (xPos width strips noise ec t j + offsetX width strips noise ec t,
        height / 2, zPos width strips noise ec t j)).length = strips + 1 := by
    simp
  refine ⟨?_, ?_, ?_⟩
  · unfold foldVertexSet
    simp
    omega
  · unfold foldVertexSet
    rw [List.getElem?_append_left (by simpa using by omega)]
    rw [List.getElem?_map, List.getElem?_range (by omega)]
    rfl
  · unfold foldVertexSet
    rw [List.getElem?_append_right (by simpa using by omega)]
    rw [List.getElem?_map]
    have hsub : i + strips + 1 - (((List.range (strips + 1)).map fun j =>
        (xPos width strips noise ec t j + offsetX width strips noise ec t,
          height / 2, zPos width strips noise ec t j)).length) = i := by
      rw [hlen1]
      omega
    rw [hsub, List.getElem?_range (by omega)]
    rfl

/-- Witness for C8 at concrete inputs. -/
theorem c8_witness :
    (foldVertexSet 16 10 4 (fun _ => 0) 0 0).length = 2 * (4 + 1) ∧
    (foldVertexSet 16 10 4 (fun _ => 0) 0 0)[3]?
      = some (xPos 16 4 (fun _ => 0) 0 0 3 + offsetX 16 4 (fun _ => 0) 0 0,
          10 / 2, zPos 16 4 (fun _ => 0) 0 0 3) ∧
    (foldVertexSet 16 10 4 (fun _ => 0) 0 0)[3 + 4 + 1]?
      = some (xPos 16 4 (fun _ => 0) 0 0 3 + offsetX 16 4 (fun _ => 0) 0 0,
          (-(10 / 2) : ℝ), zPos 16 4 (fun _ => 0) 0 0 3) :=
  c8_vertex_layout 16 10 4 (fun _ => 0) 0 0 3 (by norm_num) (by norm_num)

/-- The unclamped angle magnitude is strictly below pi/2 whenever the
effective compression lies in [0, 1] and the noise entry in [0, 1). -/
theorem foldAngle_abs_lt_half_pi (noise : ℕ → ℝ) (ec t : ℝ) (i : ℕ)
    (hec0 : 0 ≤ ec) (hn0 : 0 ≤ noise i) :
    |foldAngle noise ec t i| < Real.pi / 2 := by
  have h1 := foldAngle_abs_le noise ec t i hec0 hn0
  have h2 : Real.pi / 2.05 < Real.pi / 2 :=
    div_lt_div_of_pos_left Real.pi_pos (by norm_num) (by norm_num)
  linarith

/-- Claim C10: with pointer x in [-1, 1] and a smoothed hand compression in
[0, 1] (so the effective compression lies in [0, 1]) and noise entries in
[0, 1), every fold angle has magnitude strictly below pi/2, and the boundary x
positions are strictly increasing — the polyline never doubles back along the
wall's local X axis. -/
theorem c10_monotone_x (width t s px : ℝ) (strips : ℕ) (noise : ℕ → ℝ)
    (hw : 0 < width) (hstrips : 1 ≤ strips)
    (hn : ∀ i, 0 ≤ noise i ∧ noise i < 1)
    (hs0 : 0 ≤ s) (hs1 : s ≤ 1) (hpx : |px| ≤ 1) :
    (∀ i, |foldAngle noise (effectiveCompression s px) t i| < Real.pi / 2) ∧
    ∀ i, xPos width strips noise (effectiveCompression s px) t i
      < xPos width strips noise (effectiveCompression s px) t (i + 1) := by
  have hec0 : 0 ≤ effectiveCompression s px := hs0.trans (le_max_left _ _)
  have hangle : ∀ i,
      |foldAngle noise (effectiveCompression s px) t i| < Real.pi / 2 :=
    fun i => foldAngle_abs_lt_half_pi noise (effectiveCompression s px) t i
      hec0 (hn i).1
  refine ⟨hangle, fun i => ?_⟩
  have hcos : 0 < Real.cos (foldAngle noise (effectiveCompression s px) t i) := by
    have h := abs_lt.mp (hangle i)
    exact Real.cos_pos_of_mem_Ioo ⟨h.1, h.2⟩
  have hseg : 0 < segWidth width strips := by
    unfold segWidth
    have : (0 : ℝ) < (strips : ℝ) := by
      have : 0 < strips := hstrips
      exact_mod_cast this
    exact div_pos hw this
  have hstep : xPos width strips noise (effectiveCompression s px) t (i + 1)
      = xPos width strips noise (effectiveCompression s px) t i
        + segWidth width strips
          * Real.cos (foldAngle noise (effectiveCompression s px) t i) := rfl
  rw [hstep]
  nlinarith

/-- Witness for C10 at concrete inputs. -/
theorem c10_witness :
    (∀ i, |foldAngle (fun _ => 0.5) (effectiveCompression 0.5 1) 0 i| < Real.pi / 2) ∧
    ∀ i, xPos 16 4 (fun _ => 0.5) (effectiveCompression 0.5 1) 0 i
      < xPos 16 4 (fun _ => 0.5) (effectiveCompression 0.5 1) 0 (i + 1) :=
  c10_monotone_x 16 0 0.5 1 4 (fun _ => 0.5) (by norm_num) (by norm_num)
    (fun i => ⟨by norm_num, by norm_num⟩) (by norm_num) (by norm_num) (by simp)

/-- No transition of the App component ever enters the CAPTURING state. -/
theorem appStep_ne_capturing (s : AppState) (e : AppEvent) :
    appStep s e ≠ some AppState.CAPTURING := by
  cases s <;> cases e <;> simp [appStep]

/-- The only transition into INTERACTIVE comes from PROCESSING. -/
theorem appStep_into_interactive (s : AppState) (e : AppEvent)
    (h : appStep s e = some AppState.INTERACTIVE) : s = AppState.PROCESSING := by
  cases s <;> cases e <;> simp_all [appStep]

/-- A run started outside CAPTURING never visits CAPTURING. -/
theorem appTrace_no_capturing :
    ∀ (evs : List AppEvent) (s : AppState) (sts : List AppState),
      s ≠ AppState.CAPTURING → appTrace s evs = some sts →
      AppState.CAPTURING ∉ sts := by
  intro evs
  induction evs with
  | nil =>
    intro s sts hs h
    simp only [appTrace, Option.some.injEq] at h
    subst h
    simp only [List.mem_singleton]
    exact fun hc => hs hc.symm
  | cons e evs ih =>
    intro s sts hs h
    simp only [appTrace, Option.bind_eq_some] at h
    obtain ⟨s2, hstep, h2⟩ := h
    rw [Option.map_eq_some'] at h2
    obtain ⟨sts2, htr, rfl⟩ := h2
    have hs2 : s2 ≠ AppState.CAPTURING := by
      intro hc
      exact appStep_ne_capturing s e (hc ▸ hstep)
    have hnot := ih s2 sts2 hs2 htr
    intro hmem
    rcases List.mem_cons.mp hmem with h1 | h1
    · exact hs h1.symm
    · exact hnot h1

/-- Any run whose visited states contain INTERACTIVE either started there or
visited PROCESSING. -/
theorem appTrace_interactive_via_processing :
    ∀ (evs : List AppEvent) (s : AppState) (sts : List AppState),
      appTrace s evs = some sts → AppState.INTERACTIVE ∈ sts →
      s = AppState.INTERACTIVE ∨ AppState.PROCESSING ∈ sts := by
  intro evs
  induction evs with
  | nil =>
    intro s sts h hm
    simp only [appTrace, Option.some.injEq] at h
    subst h
    simp at hm
    exact Or.inl hm.symm
  | cons e evs ih =>
    intro s sts h hm
    simp only [appTrace, Option.bind_eq_some] at h
    obtain ⟨s2, hstep, h2⟩ := h
    rw [Option.map_eq_some'] at h2
    obtain ⟨sts2, htr, rfl⟩ := h2
    rcases List.mem_cons.mp hm with hhead | htail
    · exact Or.inl hhead.symm
    · rcases ih s2 sts2 htr htail with h1 | h1
      · have := appStep_into_interactive s e (h1 ▸ hstep)
        subst this
        exact Or.inr (List.mem_cons_self _ _)
      · exact Or.inr (List.mem_cons_of_mem _ h1)

/-- Claim C9 counterexample: the concrete run IDLE --capture-->
PROCESSING --timeout--> INTERACTIVE reaches INTERACTIVE while never visiting
CAPTURING, so a run that reaches Interactive need not have passed through
Capturing. -/
theorem c9_counterexample :
    appTrace AppState.IDLE [AppEvent.capture, AppEvent.processingDone]
      = some [AppState.IDLE, AppState.PROCESSING, AppState.INTERACTIVE] ∧
    AppState.INTERACTIVE
      ∈ [AppState.IDLE, AppState.PROCESSING, AppState.INTERACTIVE] ∧
    AppState.CAPTURING
      ∉ [AppState.IDLE, AppState.PROCESSING, AppState.INTERACTIVE] := by
  decide

/-- Claim C9 (amended): the App component's machine actually visits
Idle → Processing → Interactive: every run from IDLE that reaches INTERACTIVE
has passed through PROCESSING, no run from IDLE ever enters the declared but
unused CAPTURING state, and a reset from INTERACTIVE returns to IDLE. -/
theorem c9_amended :
    (∀ (evs : List AppEvent) (sts : List AppState),
      appTrace AppState.IDLE evs = some sts →
      (AppState.INTERACTIVE ∈ sts → AppState.PROCESSING ∈ sts) ∧
      AppState.CAPTURING ∉ sts) ∧
    appStep AppState.INTERACTIVE AppEvent.reset = some AppState.IDLE := by
  refine ⟨fun evs sts h => ⟨fun hm => ?_, ?_⟩, rfl⟩
  · rcases appTrace_interactive_via_processing evs AppState.IDLE sts h hm with h1 | h1
    · exact absurd h1 (by decide)
    · exact h1
  · exact appTrace_no_capturing evs AppState.IDLE sts (by decide) h

/-- Witness for C9 (amended) on the concrete capture-and-process run. -/
theorem c9_witness :
    AppState.PROCESSING
      ∈ [AppState.IDLE, AppState.PROCESSING, AppState.INTERACTIVE] ∧
    AppState.CAPTURING
      ∉ [AppState.IDLE, AppState.PROCESSING, AppState.INTERACTIVE] :=
  ⟨(c9_amended.1 [AppEvent.capture, AppEvent.processingDone]
      [AppState.IDLE, AppState.PROCESSING, AppState.INTERACTIVE] (by decide)).1
      (by decide),
   (c9_amended.1 [AppEvent.capture, AppEvent.processingDone]
      [AppState.IDLE, AppState.PROCESSING, AppState.INTERACTIVE] (by decide)).2⟩
